import Mathlib

/-!
Shallow embedding of the LeadGen lead-harvesting pipeline
(`lead_pipeline/pipeline.py`, `lead_pipeline/site_crawler.py`,
`lead_pipeline/wayback.py`) together with proofs about its
normalization, identity-resolution, link-prioritization,
snapshot-selection, persistence-dispatch and provenance-tagging logic.

Python strings are modelled as Lean `String` and all character-level
operations are routed through `String.data` so everything evaluates in
the kernel.  Python's `str.lower` is modelled on ASCII (all inputs under
study are ASCII; non-ASCII letters are removed by the normalizers in
both systems).  Python sets that are immediately sorted are modelled as
`List.dedup` followed by a sort, which yields the same sorted sequence.
-/

namespace LeadGen

/-- ASCII lower-casing of one character, modelling `str.lower` for the
ASCII range. -/
def lowerChar (c : Char) : Char :=
  if 'A' ≤ c ∧ c ≤ 'Z' then Char.ofNat (c.toNat + 32) else c

/-- Lower-case a string character by character (Python `s.lower()`). -/
def lowerStr (s : String) : String :=
  String.mk (s.data.map lowerChar)

/-- Characters removed by Python `str.strip()` with no arguments. -/
def isPySpace (c : Char) : Bool :=
  c == ' ' || c == '\t' || c == '\n' || c == '\x0d' || c == '\x0b' || c == '\x0c'

/-- Python `s.strip()`: drop leading and trailing whitespace. -/
def pyStrip (s : String) : String :=
  String.mk (((s.data.dropWhile isPySpace).reverse.dropWhile isPySpace).reverse)

/-- Boolean test that the first list of characters leads the second. -/
def leadsChars : List Char → List Char → Bool
  | [], _ => true
  | _ :: _, [] => false
  | a :: as, b :: bs => a == b && leadsChars as bs

/-- Boolean substring test on character lists (Python `needle in hay`). -/
def hasSubChars (needle : List Char) : List Char → Bool
  | [] => needle.isEmpty
  | b :: bs => leadsChars needle (b :: bs) || hasSubChars needle bs

/-- Python substring containment `needle in hay` on strings. -/
def strSub (needle hay : String) : Bool :=
  hasSubChars needle.data hay.data

/-- Scheme check `url.startswith(("http://", "https://"))`. -/
def httpOk (u : String) : Bool :=
  leadsChars "http://".data u.data || leadsChars "https://".data u.data

/-- Python truthiness of an optional string: `None` and `""` are falsy. -/
def pyTruthyO : Option String → Bool
  | none => false
  | some s => s != ""

/-- Unwrap an optional string, with `""` for `None`. -/
def optStr : Option String → String
  | none => ""
  | some s => s

/-- Enumeration `CrawlSource` from `lead_pipeline/models.py`. -/
inductive CrawlSource where
  | internal
  | external
  | wayback
deriving DecidableEq, Repr

/-- The string payload of the `CrawlSource` enum members. -/
def CrawlSource.value : CrawlSource → String
  | .internal => "internal"
  | .external => "external"
  | .wayback => "wayback"

/-- `ContactRecord` from `lead_pipeline/models.py`. -/
structure ContactRecord where
  business_name : String
  person_name : String
  position : Option String := none
  emails : List String := []
  phone_numbers : List String := []
  social_links : List String := []
  location : Option String := none
  notes : Option String := none
  source_url : String
  source_type : CrawlSource := .internal
  snapshot_timestamp : Option String := none
deriving DecidableEq, Repr

/-- Lexicographic comparison of character lists by codepoint, the order
Python uses on strings. -/
def charsLe : List Char → List Char → Bool
  | [], _ => true
  | _ :: _, [] => false
  | a :: as, b :: bs =>
    if a.toNat < b.toNat then true
    else if b.toNat < a.toNat then false
    else charsLe as bs

/-- Python string order `a <= b` (codepoint-lexicographic). -/
def strLe (a b : String) : Prop :=
  charsLe a.data b.data = true

instance : DecidableRel strLe := fun a b =>
  inferInstanceAs (Decidable (charsLe a.data b.data = true))

/-- Unfolding of `charsLe` on two non-empty lists. -/
theorem charsLe_cons_iff (a b : Char) (as bs : List Char) :
    charsLe (a :: as) (b :: bs) = true ↔
      a.toNat < b.toNat ∨ (a.toNat = b.toNat ∧ charsLe as bs = true) := by
  simp only [charsLe]
  split_ifs with g1 g2
  · simp [g1]
  · simp only [Bool.false_eq_true, false_iff]
    rintro (h | ⟨h, _⟩) <;> omega
  · have heq : a.toNat = b.toNat := by omega
    simp [heq, Nat.lt_irrefl]

/-- The comparison `charsLe` is total. -/
theorem charsLe_total : ∀ l m : List Char, charsLe l m = true ∨ charsLe m l = true
  | [], _ => .inl rfl
  | _ :: _, [] => .inr rfl
  | a :: as, b :: bs => by
    rw [charsLe_cons_iff, charsLe_cons_iff]
    rcases Nat.lt_trichotomy a.toNat b.toNat with h | h | h
    · exact .inl (.inl h)
    · rcases charsLe_total as bs with ih | ih
      · exact .inl (.inr ⟨h, ih⟩)
      · exact .inr (.inr ⟨h.symm, ih⟩)
    · exact .inr (.inl h)

/-- The comparison `charsLe` is transitive. -/
theorem charsLe_trans :
    ∀ l m n : List Char, charsLe l m = true → charsLe m n = true → charsLe l n = true
  | [], _, _ => fun _ _ => rfl
  | _ :: _, [], _ => fun h _ => by simp [charsLe] at h
  | _ :: _, _ :: _, [] => fun _ h => by simp [charsLe] at h
  | a :: as, b :: bs, c :: cs => fun h1 h2 => by
    rw [charsLe_cons_iff] at h1 h2 ⊢
    rcases h1 with h1 | ⟨e1, r1⟩
    · rcases h2 with h2 | ⟨e2, r2⟩
      · exact .inl (by omega)
      · exact .inl (by omega)
    · rcases h2 with h2 | ⟨e2, r2⟩
      · exact .inl (by omega)
      · exact .inr ⟨by omega, charsLe_trans as bs cs r1 r2⟩

instance : IsTotal String strLe :=
  ⟨fun a b => charsLe_total a.data b.data⟩

instance : IsTrans String strLe :=
  ⟨fun a b c => charsLe_trans a.data b.data c.data⟩

instance {ε α : Type} [DecidableEq ε] [DecidableEq α] : DecidableEq (Except ε α) := fun x y =>
  match x, y with
  | .ok a, .ok b =>
    if h : a = b then .isTrue (by rw [h]) else .isFalse (by intro e; cases e; exact h rfl)
  | .ok _, .error _ => .isFalse (by intro e; cases e)
  | .error _, .ok _ => .isFalse (by intro e; cases e)
  | .error a, .error b =>
    if h : a = b then .isTrue (by rw [h]) else .isFalse (by intro e; cases e; exact h rfl)

/-- Sorting of strings in Python codepoint order, via stable insertion
sort (Python `sorted`). -/
def sortStr (l : List String) : List String :=
  List.insertionSort strLe l

/-- `_normalize_name` from `pipeline.py`: lower-case and keep only
`[a-z0-9]` (the regex `_NON_ALPHA` removes everything else). -/
def _normalize_name (name : String) : String :=
  String.mk ((lowerStr name).data.filter fun c =>
    ('a' ≤ c && c ≤ 'z') || ('0' ≤ c && c ≤ '9'))

/-- `_normalize_emails` from `pipeline.py`: the set
`{email.strip().lower() for email in emails if email}` returned as a
sorted tuple.  Note the truthiness filter `if email` applies to the raw
value, before stripping. -/
def _normalize_emails (emails : List String) : List String :=
  sortStr (((emails.filter (· != "")).map (fun e => lowerStr (pyStrip e))).dedup)

/-- Removal of every non-digit character (the regex `_NON_DIGIT`). -/
def cleanDigits (s : String) : String :=
  String.mk (s.data.filter Char.isDigit)

/-- Python `num.lstrip "0"`: drop all leading zero characters. -/
def lstripZeros (s : String) : String :=
  String.mk (s.data.dropWhile (· == '0'))

/-- The expression `num.lstrip("0") or num` from `_normalize_phones`:
when stripping the zeros empties the value, the whole original value is
kept. -/
def sanitizePhone (num : String) : String :=
  if lstripZeros num == "" then num else lstripZeros num

/-- `_normalize_phones` from `pipeline.py`: clean to digits, sanitize
leading zeros, drop empties, dedupe (sets) and sort. -/
def _normalize_phones (numbers : List String) : List String :=
  let cleaned := ((numbers.filter (· != "")).map cleanDigits).dedup
  let sanitized := ((cleaned.filter (· != "")).map sanitizePhone).dedup
  sortStr sanitized

/-- `_normalize_social_links` from `pipeline.py`. -/
def _normalize_social_links (links : List String) : List String :=
  sortStr (((links.filter (· != "")).map (fun l => lowerStr (pyStrip l))).dedup)

/-- The signature tuple produced by `_contact_signature`. -/
structure Signature where
  biz : String
  nameTok : String
  emailToks : List String
  phoneToks : List String
  socialToks : List String
  pos : String
  srcType : String
  snapTs : String
deriving DecidableEq, Repr

/-- `_contact_signature` from `pipeline.py`, with the two sequential
name-token fallbacks (first email key, else first phone key). -/
def _contact_signature (c : ContactRecord) : Signature :=
  let nameTok := _normalize_name c.person_name
  let emailToks := _normalize_emails c.emails
  let phoneToks := _normalize_phones c.phone_numbers
  let socialToks := _normalize_social_links c.social_links
  let nameTok := if nameTok = "" ∧ emailToks ≠ [] then emailToks.headD "" else nameTok
  let nameTok := if nameTok = "" ∧ phoneToks ≠ [] then phoneToks.headD "" else nameTok
  { biz := lowerStr (pyStrip c.business_name)
    nameTok := nameTok
    emailToks := emailToks
    phoneToks := phoneToks
    socialToks := socialToks
    pos := if pyTruthyO c.position then lowerStr (pyStrip (optStr c.position)) else ""
    srcType := c.source_type.value
    snapTs := optStr c.snapshot_timestamp }

/-- The loop of `_merge_lists`: walk `secondary`, skipping falsy items
and items whose lower-casing is already in `seen`, appending the rest. -/
def mergeLoop (acc seen : List String) : List String → List String
  | [] => acc
  | item :: rest =>
    if item = "" then mergeLoop acc seen rest
    else if lowerStr item ∈ seen then mergeLoop acc seen rest
    else mergeLoop (acc ++ [item]) (lowerStr item :: seen) rest

/-- `_merge_lists` from `pipeline.py`: append unique items of
`secondary` into `primary`, case-insensitively, preserving order. -/
def _merge_lists (primary secondary : List String) : List String :=
  mergeLoop primary (primary.map lowerStr) secondary

/-- The scalar fill-if-empty block of `_merge_contacts` (person name,
position, location are taken from the incoming record only when the
base value is falsy). -/
def fillScalars (base incoming : ContactRecord) : ContactRecord :=
  let b1 := if base.person_name = "" ∧ incoming.person_name ≠ "" then
      { base with person_name := incoming.person_name } else base
  let b2 := if pyTruthyO b1.position = false ∧ pyTruthyO incoming.position = true then
      { b1 with position := incoming.position } else b1
  if pyTruthyO b2.location = false ∧ pyTruthyO incoming.location = true then
    { b2 with location := incoming.location } else b2

/-- The list-union block of `_merge_contacts`. -/
def unionLists (base incoming : ContactRecord) : ContactRecord :=
  { base with
    emails := _merge_lists base.emails incoming.emails
    phone_numbers := _merge_lists base.phone_numbers incoming.phone_numbers
    social_links := _merge_lists base.social_links incoming.social_links }

/-- The notes block of `_merge_contacts`: append incoming notes with a
separator when they are not already substring-present
(case-insensitively), copy them when the base has none. -/
def foldNotes (base incoming : ContactRecord) : ContactRecord :=
  if pyTruthyO incoming.notes = true then
    (if pyTruthyO base.notes = true ∧
        strSub (lowerStr (optStr incoming.notes)) (lowerStr (optStr base.notes)) = false then
      { base with notes := some (optStr base.notes ++ " | " ++ optStr incoming.notes) }
    else if pyTruthyO base.notes = false then
      { base with notes := incoming.notes }
    else base)
  else base

/-- The source-URL block of `_merge_contacts`: a differing incoming URL
is recorded in the notes when the base already has one, otherwise it is
adopted. -/
def foldSource (base incoming : ContactRecord) : ContactRecord :=
  if incoming.source_url ≠ "" ∧ incoming.source_url ≠ base.source_url then
    (if base.source_url ≠ "" then
      (if pyTruthyO base.notes = true then
        { base with notes := some (optStr base.notes ++ " | Additional source: " ++ incoming.source_url) }
      else
        { base with notes := some ("Additional source: " ++ incoming.source_url) })
    else
      { base with source_url := incoming.source_url })
  else base

/-- `_merge_contacts` from `pipeline.py`, as a pure function returning
the updated base record: the four statement blocks of the source run in
order (scalar fill, list union, notes merge, source-URL provenance). -/
def _merge_contacts (base incoming : ContactRecord) : ContactRecord :=
  foldSource (foldNotes (unionLists (fillScalars base incoming) incoming) incoming) incoming

/-- One step of the dict update in `_deduplicate_contacts`: Python
dicts keep insertion order, so the map is an ordered association list
and a hit merges in place. -/
def upsertSig : List (Signature × ContactRecord) → Signature → ContactRecord →
    List (Signature × ContactRecord)
  | [], sig, c => [(sig, c)]
  | (s, e) :: rest, sig, c =>
    if s = sig then (s, _merge_contacts e c) :: rest
    else (s, e) :: upsertSig rest sig c

/-- `_deduplicate_contacts` from `pipeline.py`. -/
def _deduplicate_contacts (contacts : List ContactRecord) : List ContactRecord :=
  (contacts.foldl (fun m c => upsertSig m (_contact_signature c) c) []).map Prod.snd

/-- Numeric value of a digit list (most significant first). -/
def digitsVal (l : List Char) : Nat :=
  l.foldl (fun a c => a * 10 + (c.toNat - 48)) 0

/-- Python `int(s)` on a string: optional surrounding whitespace, an
optional single sign, then a non-empty run of digits; anything else
raises `ValueError`, modelled as `none`. -/
def pyInt? (s : String) : Option Int :=
  match (pyStrip s).data with
  | '-' :: r => if r ≠ [] ∧ r.all Char.isDigit then some (-(digitsVal r : Int)) else none
  | '+' :: r => if r ≠ [] ∧ r.all Char.isDigit then some ((digitsVal r : Int)) else none
  | r => if r ≠ [] ∧ r.all Char.isDigit then some ((digitsVal r : Int)) else none

/-- `SnapshotRecord` from `lead_pipeline/models.py`. -/
structure SnapshotRecord where
  original_url : String
  snapshot_url : String
  timestamp : String
  source_type : CrawlSource := .wayback
deriving DecidableEq, Repr

/-- The snapshot record built inside `_api_snapshot_lookup`. -/
def mkApiSnap (ts orig : String) : SnapshotRecord :=
  { original_url := orig
    snapshot_url := "https://web.archive.org/web/" ++ ts ++ "/" ++ orig
    timestamp := ts
    source_type := .wayback }

/-- The row loop of `_api_snapshot_lookup` in `wayback.py`: skip short
rows, rows with a falsy timestamp or original URL, rows whose first
four timestamp characters do not parse as an int, and rows before the
cutoff year; append the rest and stop once the limit is reached (the
length test runs after each append). -/
def collectRows (tsIdx urlIdx : Nat) (cutoff : Int) (limit : Nat) :
    List (List String) → List SnapshotRecord → List SnapshotRecord
  | [], acc => acc
  | row :: rest, acc =>
    if row.length ≤ max tsIdx urlIdx then collectRows tsIdx urlIdx cutoff limit rest acc
    else
      let ts := row.getD tsIdx ""
      let orig := row.getD urlIdx ""
      if ts = "" ∨ orig = "" then collectRows tsIdx urlIdx cutoff limit rest acc
      else
        match pyInt? (String.mk (ts.data.take 4)) with
        | none => collectRows tsIdx urlIdx cutoff limit rest acc
        | some year =>
          if year < cutoff then collectRows tsIdx urlIdx cutoff limit rest acc
          else
            let acc2 := acc ++ [mkApiSnap ts orig]
            if limit ≤ acc2.length then acc2
            else collectRows tsIdx urlIdx cutoff limit rest acc2

/-- The pure core of `_api_snapshot_lookup` from `wayback.py`, taking
the decoded CDX JSON rows, the cutoff year and the snapshot limit as
inputs (the HTTP fetch and the cutoff-year computation from the clock
stay outside the embedding).  An empty or header-only response, or a
header missing the `timestamp` or `original` column, yields `[]`. -/
def _api_snapshot_lookup (data : List (List String)) (cutoff : Int) (limit : Nat) :
    List SnapshotRecord :=
  match data with
  | [] => []
  | header :: rows =>
    if rows = [] then []
    else
      match header.findIdx? (· == "timestamp"), header.findIdx? (· == "original") with
      | some tsIdx, some urlIdx => collectRows tsIdx urlIdx cutoff limit rows []
      | some _, none => []
      | none, _ => []

/-- `SnapshotEntry` from `wayback.py` (the LLM payload schema). -/
structure SnapshotEntry where
  original_url : String
  snapshot_url : String
  timestamp : String
deriving DecidableEq, Repr

/-- One iteration of the entry loop in `discover_snapshots`: strip the
fields, drop entries with a falsy timestamp or original URL, and
canonicalize a wildcard or timestamp-less snapshot URL. -/
def canonEntry (e : SnapshotEntry) : Option SnapshotRecord :=
  let ts := pyStrip e.timestamp
  let orig := pyStrip e.original_url
  let su := pyStrip e.snapshot_url
  if ts = "" ∨ orig = "" then none
  else
    let su :=
      if su.data.contains '*' ∨ strSub ts su = false then
        "https://web.archive.org/web/" ++ ts ++ "/" ++ orig
      else su
    some { original_url := orig, snapshot_url := su, timestamp := ts, source_type := .wayback }

/-- Ascending timestamp order on snapshot records. -/
def tsLe (a b : SnapshotRecord) : Prop :=
  strLe a.timestamp b.timestamp

instance : DecidableRel tsLe := fun a b =>
  inferInstanceAs (Decidable (strLe a.timestamp b.timestamp))

instance : IsTotal SnapshotRecord tsLe :=
  ⟨fun a b => charsLe_total a.timestamp.data b.timestamp.data⟩

instance : IsTrans SnapshotRecord tsLe :=
  ⟨fun a b c => charsLe_trans a.timestamp.data b.timestamp.data c.timestamp.data⟩

/-- The fallback tier of `discover_snapshots` in `wayback.py`, taking
the validated payload entries: canonicalize, sort ascending by
timestamp (`snapshots.sort(key=...)`, a stable sort) and truncate to
the configured limit. -/
def fallbackSnapshots (entries : List SnapshotEntry) (limit : Nat) : List SnapshotRecord :=
  (List.insertionSort tsLe (entries.filterMap canonEntry)).take limit

/-- The notes-tagging rule of `extract_contacts_from_snapshot` in
`wayback.py`: truthy notes get an archival suffix, falsy notes are
replaced by the provenance sentence. -/
def tagNotes (notes : Option String) (ts : String) : Option String :=
  if pyTruthyO notes = true then
    some (optStr notes ++ " (sourced from " ++ ts ++ ")")
  else
    some ("Sourced from " ++ ts)

/-- `extract_contacts_from_snapshot` from `wayback.py`, taking the
contacts returned by `extract_contacts_from_page` for the snapshot URL
as input and tagging their notes with archival provenance. -/
def extract_contacts_from_snapshot (pageContacts : List ContactRecord) (ts : String) :
    List ContactRecord :=
  pageContacts.map (fun c => { c with notes := tagNotes c.notes ts })

/-- A JSON-ish score value inside a link dictionary: the scoring
collaborator may supply a number or an arbitrary string. -/
inductive JVal where
  | jnum (q : ℚ)
  | jstr (s : String)
deriving DecidableEq, Repr

/-- Python truthiness of a score value (`0.0` and `""` are falsy). -/
def jTruthy : JVal → Bool
  | .jnum q => q != 0
  | .jstr s => s != ""

/-- Python `a or d` on an optional score value. -/
def orJ (o : Option JVal) (d : JVal) : JVal :=
  match o with
  | some v => if jTruthy v then v else d
  | none => d

/-- A link dictionary as consumed by `_split_links` in
`site_crawler.py` (`dict.get` on absent keys gives `None`). -/
structure LinkDict where
  url : Option String := none
  href : Option String := none
  total_score : Option JVal := none
  intrinsic_score : Option JVal := none
deriving DecidableEq, Repr

/-- Python `link.get("url") or link.get("href")` followed by the
truthiness check `if not url: return None`. -/
def firstTruthyStr (a b : Option String) : Option String :=
  if pyTruthyO a then a else if pyTruthyO b then b else none

/-- Python `float(s)` on a string: optional whitespace and sign, then
digits with an optional fractional part; anything else raises
`ValueError`, modelled as `none` (exponents, `inf` and `nan` are not
exercised here). -/
def parseDec (s : String) : Option ℚ :=
  let t := (pyStrip s).data
  let (sgn, r) : ℚ × List Char :=
    match t with
    | '-' :: r => (-1, r)
    | '+' :: r => (1, r)
    | r => (1, r)
  let ip := r.takeWhile Char.isDigit
  let rest := r.drop ip.length
  match rest with
  | [] => if ip = [] then none else some (sgn * (digitsVal ip : ℚ))
  | '.' :: fp =>
    if fp.all Char.isDigit ∧ ¬(ip = [] ∧ fp = []) then
      some (sgn * ((digitsVal ip : ℚ) + (digitsVal fp : ℚ) / (10 : ℚ) ^ fp.length))
    else none
  | _ :: _ => none

/-- Python `float(v)` on a score value: numbers pass through, strings
are parsed, and an unparsable string raises `ValueError`, modelled as
`Except.error`. -/
def pyFloat : JVal → Except String ℚ
  | .jnum q => .ok q
  | .jstr s =>
    match parseDec s with
    | some q => .ok q
    | none => .error ("could not convert string to float: " ++ s)

/-- The inner `_normalize` helper of `_split_links`: reject a link with
a falsy URL or a non-http(s) scheme (returning nothing), otherwise
coerce its score, which can raise. -/
def _normalize_link (l : LinkDict) : Except String (Option (String × ℚ)) :=
  match firstTruthyStr l.url l.href with
  | none => .ok none
  | some u =>
    if httpOk u = false then .ok none
    else
      match pyFloat (orJ l.total_score (orJ l.intrinsic_score (.jnum 0))) with
      | .ok q => .ok (some (u, q))
      | .error e => .error e

/-- The accumulation loop of the `_rank` helper of `_split_links`:
skip rejected links, drop URLs already seen (first occurrence wins),
and propagate a score-coercion error. -/
def collectPairs : List LinkDict → List String → List (String × ℚ) →
    Except String (List (String × ℚ))
  | [], _, acc => .ok acc
  | l :: rest, seen, acc =>
    match _normalize_link l with
    | .error e => .error e
    | .ok none => collectPairs rest seen acc
    | .ok (some (u, q)) =>
      if u ∈ seen then collectPairs rest seen acc
      else collectPairs rest (u :: seen) (acc ++ [(u, q)])

/-- Descending-score order on (url, score) pairs: `p` precedes `q` when
`p`'s score is at least `q`'s. -/
def scoreGe (p q : String × ℚ) : Prop :=
  q.2 ≤ p.2

instance : DecidableRel scoreGe := fun p q =>
  inferInstanceAs (Decidable (q.2 ≤ p.2))

instance : IsTotal (String × ℚ) scoreGe :=
  ⟨fun a b => le_total b.2 a.2⟩

instance : IsTrans (String × ℚ) scoreGe :=
  ⟨fun _ _ _ h1 h2 => le_trans h2 h1⟩

/-- The sort-then-project tail of `_rank`:
`normalized.sort(key=..., reverse=True)` is a stable descending sort,
modelled by insertion sort under `scoreGe`. -/
def rankOrder (pairs : List (String × ℚ)) : List String :=
  (List.insertionSort scoreGe pairs).map Prod.fst

/-- The `_rank` helper of `_split_links` in `site_crawler.py`. -/
def _rank (items : List LinkDict) : Except String (List String) :=
  (collectPairs items [] []).map rankOrder

/-- The dictionary returned by `_split_links`. -/
structure SplitResult where
  internal : List String
  external : List String
deriving DecidableEq, Repr

/-- `_split_links` from `site_crawler.py`: `None` input yields empty
lists, otherwise rank each side and truncate independently to the
configured maxima; a score-coercion error propagates. -/
def _split_links (links : Option (List LinkDict × List LinkDict))
    (maxInternal maxExternal : Nat) : Except String SplitResult :=
  match links with
  | none => .ok { internal := [], external := [] }
  | some (internalItems, externalItems) =>
    match _rank internalItems with
    | .error e => .error e
    | .ok i =>
      match _rank externalItems with
      | .error e => .error e
      | .ok e => .ok { internal := i.take maxInternal, external := e.take maxExternal }

/-- `BusinessProfile` from `lead_pipeline/models.py`, restricted to the
fields the orchestrator run loop reads. -/
structure BusinessProfile where
  name : String
  website : Option String := none
deriving DecidableEq, Repr

/-- The raw contacts the run loop of `LeadHarvestPipeline.run`
accumulates for one business: the surface/snapshot extraction results
(abstracted as `gather`, covering homepage, prioritized links and
snapshots in their fixed order) when the business has a truthy website,
otherwise the empty list. -/
def rawFor (gather : BusinessProfile → List ContactRecord) (b : BusinessProfile) :
    List ContactRecord :=
  if pyTruthyO b.website = true then gather b else []

/-- The trace of `upsert_contacts` persistence calls issued by the run
loop of `LeadHarvestPipeline.run` in `pipeline.py`, in order, each
tagged with the business being processed: the sink is invoked only when
it is enabled and the deduplicated contact list is non-empty. -/
def runEvents (enabled : Bool) (gather : BusinessProfile → List ContactRecord) :
    List BusinessProfile → List (String × List ContactRecord)
  | [] => []
  | b :: rest =>
    let deduped := _deduplicate_contacts (rawFor gather b)
    (if enabled = true ∧ deduped ≠ [] then [(b.name, deduped)] else []) ++
      runEvents enabled gather rest

/-! Concrete inputs used by counterexamples and witnesses. -/

/-- The homepage contact of the end-to-end scenario in the spec. -/
def acmeHomepageContact : ContactRecord :=
  { business_name := "Acme LLC", person_name := "Jane Doe",
    emails := ["JANE@acme.com"], source_url := "https://acme.com" }

/-- The internal-link contact of the end-to-end scenario in the spec. -/
def acmeInternalContact : ContactRecord :=
  { business_name := "Acme LLC", person_name := "",
    emails := ["jane@acme.com"], phone_numbers := ["(212) 555-0100"],
    source_url := "https://acme.com/contact" }

/-- A CDX response whose rows are not in chronological order. -/
def demoCdx : List (List String) :=
  [["timestamp", "original", "statuscode"],
   ["20240101000000", "http://ex.com/", "200"],
   ["20200101000000", "http://ex.com/a", "200"]]

/-- Fallback-tier entries arriving out of chronological order. -/
def demoEntries : List SnapshotEntry :=
  [⟨"http://ex.com/", "https://web.archive.org/web/*/http://ex.com/", "20240101000000"⟩,
   ⟨"http://ex.com/a", "x", "20200101000000"⟩]

/-- The rational number 0.9, as a reduced fraction. -/
def q09 : ℚ := ⟨9, 10, by norm_num, by norm_num⟩

/-- The rational number 0.5, as a reduced fraction. -/
def q05 : ℚ := ⟨1, 2, by norm_num, by norm_num⟩

/-- The literal link list of the spec's determinism example: URLs
`a`, `b`, `c` with scores 0.9, 0.5, 0.9. -/
def bareLinks : List LinkDict :=
  [{ url := some "a", total_score := some (.jnum q09) },
   { url := some "b", total_score := some (.jnum q05) },
   { url := some "c", total_score := some (.jnum q09) }]

/-- The same link list with http URLs, which survive the scheme
filter. -/
def httpLinks : List LinkDict :=
  [{ url := some "http://a", total_score := some (.jnum q09) },
   { url := some "http://b", total_score := some (.jnum q05) },
   { url := some "http://c", total_score := some (.jnum q09) }]

/-- A link with a well-formed URL but a non-numeric score value. -/
def badScoreLink : LinkDict :=
  { url := some "http://a", total_score := some (.jstr "abc") }

/-- A raw contact whose email list already contains a duplicate. -/
def dupContact : ContactRecord :=
  { business_name := "B", person_name := "P",
    emails := ["a@x.com", "a@x.com"], source_url := "u" }

/-- A contact with pre-existing notes, for the provenance tagging. -/
def demoSnapContact : ContactRecord :=
  { business_name := "B", person_name := "P", notes := some "VP of Sales",
    source_url := "u" }

/-- Two businesses, one with a website and one without. -/
def demoBusinesses : List BusinessProfile :=
  [⟨"B1", some "http://b1"⟩, ⟨"B2", none⟩]

/-- A gathering function returning one fixed contact for every
business. -/
def demoGather : BusinessProfile → List ContactRecord :=
  fun _ => [acmeHomepageContact]

/-! Helper lemmas. -/

/-- A character list leads itself. -/
theorem leadsChars_self : ∀ l : List Char, leadsChars l l = true
  | [] => rfl
  | a :: as => by simp [leadsChars, leadsChars_self as]

/-- Every string is a substring of itself. -/
theorem strSub_self (s : String) : strSub s s = true := by
  unfold strSub
  cases h : s.data with
  | nil => rfl
  | cons c cs => simp [hasSubChars, leadsChars_self]

/-- The merge loop is a no-op when every incoming item is falsy or
already seen. -/
theorem mergeLoop_noop : ∀ (sec acc seen : List String),
    (∀ x ∈ sec, x = "" ∨ lowerStr x ∈ seen) → mergeLoop acc seen sec = acc := by
  intro sec
  induction sec with
  | nil => intro acc seen _; rfl
  | cons x rest ih =>
    intro acc seen h
    have hrest : ∀ y ∈ rest, y = "" ∨ lowerStr y ∈ seen :=
      fun y hy => h y (List.mem_cons_of_mem _ hy)
    by_cases hx0 : x = ""
    · simp only [mergeLoop, if_pos hx0]
      exact ih acc seen hrest
    · rcases h x (List.mem_cons_self _ _) with hx | hx
      · exact absurd hx hx0
      · simp only [mergeLoop, if_neg hx0, if_pos hx]
        exact ih acc seen hrest

/-- Merging a list into itself changes nothing. -/
theorem merge_lists_self (l : List String) : _merge_lists l l = l :=
  mergeLoop_noop l l (l.map lowerStr) (fun _ hx => .inr (List.mem_map_of_mem _ hx))

/-- The scalar fill block is a no-op on a self-merge. -/
theorem fillScalars_self (r : ContactRecord) : fillScalars r r = r := by
  simp only [fillScalars]
  split_ifs <;> simp_all

/-- The list-union block is a no-op on a self-merge. -/
theorem unionLists_self (r : ContactRecord) : unionLists r r = r := by
  simp [unionLists, merge_lists_self]

/-- The notes block is a no-op on a self-merge (its substring check
suppresses the duplication). -/
theorem foldNotes_self (r : ContactRecord) : foldNotes r r = r := by
  unfold foldNotes
  cases h : pyTruthyO r.notes <;> simp [strSub_self]

/-- The source-URL block is a no-op on a self-merge (the equal-URL
check suppresses the duplication). -/
theorem foldSource_self (r : ContactRecord) : foldSource r r = r := by
  unfold foldSource
  rw [if_neg (fun h => h.2 rfl)]

/-- Merging a contact record with itself changes nothing. -/
theorem merge_contacts_self (r : ContactRecord) : _merge_contacts r r = r := by
  unfold _merge_contacts
  rw [fillScalars_self, unionLists_self, foldNotes_self, foldSource_self]

/-- Membership is preserved by the string sort. -/
theorem mem_sortStr {s : String} {l : List String} : s ∈ sortStr l ↔ s ∈ l :=
  List.Perm.mem_iff (List.perm_insertionSort strLe l)

/-- The string sort sorts. -/
theorem sorted_sortStr (l : List String) : List.Sorted strLe (sortStr l) :=
  List.sorted_insertionSort strLe l

/-- The string sort preserves duplicate-freedom. -/
theorem nodup_sortStr {l : List String} (h : l.Nodup) : (sortStr l).Nodup :=
  (List.perm_insertionSort strLe l).nodup_iff.mpr h

/-! Claims C2, C4, C5. -/

/-- C2: identity resolution is idempotent on a duplicated observation:
for every raw `ContactRecord` `r`, resolving `[r, r]` yields the same
single `ResolvedContact`, equal in every field, as resolving `[r]`;
the note and source duplication is suppressed by the case-insensitive
substring check and the equal-source-URL check. -/
theorem c2_resolution_idempotent (r : ContactRecord) :
    _deduplicate_contacts [r, r] = _deduplicate_contacts [r] ∧
      _deduplicate_contacts [r] = [r] := by
  have h1 : _deduplicate_contacts [r] = [r] := by
    simp [_deduplicate_contacts, upsertSig]
  have h2 : _deduplicate_contacts [r, r] = [r] := by
    simp [_deduplicate_contacts, upsertSig, merge_contacts_self]
  exact ⟨h2.trans h1.symm, h1⟩

/-- C4 counterexample: the claim predicts that normalizing `["000"]`
yields `["0"]` (keeping the last zero); the code's `lstrip("0") or num`
keeps the whole original value `"000"`. -/
theorem c4_phone_counterexample :
    _normalize_phones ["000"] = ["000"] ∧ _normalize_phones ["000"] ≠ ["0"] := by
  decide

/-- C4 as amended: phone normalization strips every non-digit
character, then strips leading zeros, and a value that becomes empty
after stripping zeros keeps its entire original cleaned value (so
`["000"]` normalizes to `["000"]`); empty values are dropped and the
result is deduplicated and sorted. -/
theorem c4_phone_normalization :
    _normalize_phones ["000"] = ["000"] ∧
    ∀ numbers : List String,
      List.Sorted strLe (_normalize_phones numbers) ∧
      (_normalize_phones numbers).Nodup ∧
      (∀ s, s ∈ _normalize_phones numbers ↔
        ∃ x, x ∈ numbers ∧ x ≠ "" ∧ cleanDigits x ≠ "" ∧ s = sanitizePhone (cleanDigits x)) := by
  refine ⟨by decide, fun numbers => ⟨sorted_sortStr _, nodup_sortStr (List.nodup_dedup _), ?_⟩⟩
  intro s
  simp only [_normalize_phones, mem_sortStr, List.mem_dedup, List.mem_map, List.mem_filter,
    bne_iff_ne, ne_eq]
  constructor
  · rintro ⟨y, ⟨⟨x, ⟨hx, hx0⟩, rfl⟩, hy0⟩, rfl⟩
    exact ⟨x, hx, hx0, hy0, rfl⟩
  · rintro ⟨x, hx, hx0, hc0, rfl⟩
    exact ⟨cleanDigits x, ⟨⟨x, ⟨hx, hx0⟩, rfl⟩, hc0⟩, rfl⟩

/-- C5 counterexample: the claim predicts that a whitespace-only email
normalizes away; the code filters on raw truthiness before stripping,
so `["   "]` normalizes to `[""]`, not `[]`. -/
theorem c5_email_counterexample :
    _normalize_emails ["   "] = [""] ∧ _normalize_emails ["   "] ≠ [] := by
  decide

/-- C5 as amended: email normalization trims and lower-cases each
address and drops values that are empty before trimming; a
whitespace-only string is kept and normalizes to the empty string (so
`["   "]` yields `[""]`); the result is duplicate-free and sorted in
codepoint order. -/
theorem c5_email_normalization :
    _normalize_emails ["   "] = [""] ∧
    ∀ emails : List String,
      List.Sorted strLe (_normalize_emails emails) ∧
      (_normalize_emails emails).Nodup ∧
      (∀ s, s ∈ _normalize_emails emails ↔
        ∃ e, e ∈ emails ∧ e ≠ "" ∧ s = lowerStr (pyStrip e)) := by
  refine ⟨by decide, fun emails => ⟨sorted_sortStr _, nodup_sortStr (List.nodup_dedup _), ?_⟩⟩
  intro s
  simp only [_normalize_emails, mem_sortStr, List.mem_dedup, List.mem_map, List.mem_filter,
    bne_iff_ne, ne_eq]
  constructor
  · rintro ⟨e, ⟨he, he0⟩, rfl⟩
    exact ⟨e, he, he0, rfl⟩
  · rintro ⟨e, he, he0, rfl⟩
    exact ⟨e, ⟨he, he0⟩, rfl⟩

/-! Claim C1. -/

/-- C1 counterexample: on the end-to-end scenario's two raw records,
the resolver produces two `ResolvedContact`s, not one — the homepage
record's signature carries the name key `janedoe` and no phone key,
while the internal-link record falls back to its email key as name
token and carries a phone key, so their signatures differ and no merge
occurs. -/
theorem c1_acme_counterexample :
    (_deduplicate_contacts [acmeHomepageContact, acmeInternalContact]).length = 2 ∧
    (_deduplicate_contacts [acmeHomepageContact, acmeInternalContact]).length ≠ 1 := by
  decide

/-- C1 as amended: resolving the two Acme records yields both records
unchanged, because their signatures differ (different name tokens and
different phone key sequences); the normalizers alone do produce
`jane@acme.com` and `2125550100`, but only inside the signature, never
in the resolved record's raw field lists. -/
theorem c1_acme_resolution :
    _deduplicate_contacts [acmeHomepageContact, acmeInternalContact] =
      [acmeHomepageContact, acmeInternalContact] ∧
    _contact_signature acmeHomepageContact ≠ _contact_signature acmeInternalContact ∧
    _normalize_emails acmeHomepageContact.emails = ["jane@acme.com"] ∧
    _normalize_phones acmeInternalContact.phone_numbers = ["2125550100"] := by
  decide

/-! Claim C6. -/

/-- Case-insensitive duplicate-freedom of the three list containers of
a contact record. -/
def noDupLists (c : ContactRecord) : Prop :=
  (c.emails.map lowerStr).Nodup ∧ (c.phone_numbers.map lowerStr).Nodup ∧
    (c.social_links.map lowerStr).Nodup

instance : DecidablePred noDupLists := fun c => by
  unfold noDupLists
  exact inferInstance

/-- The merge loop preserves case-insensitive duplicate-freedom of the
accumulator, given that the seen set covers it. -/
theorem mergeLoop_nodup : ∀ (sec acc seen : List String),
    (acc.map lowerStr).Nodup → (∀ a ∈ acc, lowerStr a ∈ seen) →
    ((mergeLoop acc seen sec).map lowerStr).Nodup := by
  intro sec
  induction sec with
  | nil => intro acc seen h _; exact h
  | cons x rest ih =>
    intro acc seen h hsub
    by_cases hx0 : x = ""
    · simp only [mergeLoop, if_pos hx0]
      exact ih acc seen h hsub
    · by_cases hin : lowerStr x ∈ seen
      · simp only [mergeLoop, if_neg hx0, if_pos hin]
        exact ih acc seen h hsub
      · simp only [mergeLoop, if_neg hx0, if_neg hin]
        apply ih
        · rw [List.map_append]
          refine List.Nodup.append h (List.nodup_singleton _) ?_
          intro a ha hb
          rcases List.mem_map.mp ha with ⟨y, hy, rfl⟩
          have hseen := hsub y hy
          have : lowerStr y = lowerStr x := by simpa using hb
          rw [this] at hseen
          exact hin hseen
        · intro a ha
          rcases List.mem_append.mp ha with ha | ha
          · exact List.mem_cons_of_mem _ (hsub a ha)
          · rw [show a = x by simpa using ha]
            exact List.mem_cons_self _ _

/-- `_merge_lists` preserves case-insensitive duplicate-freedom of the
base list, whatever the incoming list contains. -/
theorem merge_lists_nodup {p : List String} (s : List String)
    (h : (p.map lowerStr).Nodup) : ((_merge_lists p s).map lowerStr).Nodup :=
  mergeLoop_nodup s p (p.map lowerStr) h (fun _ ha => List.mem_map_of_mem _ ha)

/-- The scalar fill block does not touch the list containers. -/
theorem fillScalars_lists (b i : ContactRecord) :
    (fillScalars b i).emails = b.emails ∧
    (fillScalars b i).phone_numbers = b.phone_numbers ∧
    (fillScalars b i).social_links = b.social_links := by
  simp only [fillScalars]
  split_ifs <;> exact ⟨rfl, rfl, rfl⟩

/-- The notes block does not touch the list containers. -/
theorem foldNotes_lists (b i : ContactRecord) :
    (foldNotes b i).emails = b.emails ∧
    (foldNotes b i).phone_numbers = b.phone_numbers ∧
    (foldNotes b i).social_links = b.social_links := by
  unfold foldNotes
  split_ifs <;> exact ⟨rfl, rfl, rfl⟩

/-- The source-URL block does not touch the list containers. -/
theorem foldSource_lists (b i : ContactRecord) :
    (foldSource b i).emails = b.emails ∧
    (foldSource b i).phone_numbers = b.phone_numbers ∧
    (foldSource b i).social_links = b.social_links := by
  unfold foldSource
  split_ifs <;> exact ⟨rfl, rfl, rfl⟩

/-- The list containers of a merged contact are exactly the
`_merge_lists` unions of the base and incoming containers. -/
theorem merge_contacts_lists (b i : ContactRecord) :
    (_merge_contacts b i).emails = _merge_lists b.emails i.emails ∧
    (_merge_contacts b i).phone_numbers = _merge_lists b.phone_numbers i.phone_numbers ∧
    (_merge_contacts b i).social_links = _merge_lists b.social_links i.social_links := by
  unfold _merge_contacts
  obtain ⟨e1, p1, s1⟩ := foldSource_lists (foldNotes (unionLists (fillScalars b i) i) i) i
  obtain ⟨e2, p2, s2⟩ := foldNotes_lists (unionLists (fillScalars b i) i) i
  obtain ⟨e3, p3, s3⟩ := fillScalars_lists b i
  refine ⟨?_, ?_, ?_⟩
  · rw [e1, e2]
    show _merge_lists (fillScalars b i).emails i.emails = _
    rw [e3]
  · rw [p1, p2]
    show _merge_lists (fillScalars b i).phone_numbers i.phone_numbers = _
    rw [p3]
  · rw [s1, s2]
    show _merge_lists (fillScalars b i).social_links i.social_links = _
    rw [s3]

/-- Merging preserves container duplicate-freedom of the base. -/
theorem merge_contacts_noDup {b : ContactRecord} (i : ContactRecord)
    (h : noDupLists b) : noDupLists (_merge_contacts b i) := by
  obtain ⟨he, hp, hs⟩ := h
  obtain ⟨e, p, s⟩ := merge_contacts_lists b i
  refine ⟨?_, ?_, ?_⟩
  · rw [e]; exact merge_lists_nodup _ he
  · rw [p]; exact merge_lists_nodup _ hp
  · rw [s]; exact merge_lists_nodup _ hs

/-- The dict-update step preserves container duplicate-freedom of every
stored record. -/
theorem upsertSig_noDup : ∀ (m : List (Signature × ContactRecord)) (sig : Signature)
    (c : ContactRecord), (∀ p ∈ m, noDupLists p.2) → noDupLists c →
    ∀ p ∈ upsertSig m sig c, noDupLists p.2 := by
  intro m
  induction m with
  | nil =>
    intro sig c _ hc p hp
    rw [show p = (sig, c) by simpa [upsertSig] using hp]
    exact hc
  | cons a rest ih =>
    intro sig c hm hc p hp
    obtain ⟨s, e⟩ := a
    simp only [upsertSig] at hp
    split_ifs at hp with hss
    · rcases List.mem_cons.mp hp with rfl | hp
      · exact merge_contacts_noDup c (hm (s, e) (List.mem_cons_self _ _))
      · exact hm p (List.mem_cons_of_mem _ hp)
    · rcases List.mem_cons.mp hp with rfl | hp
      · exact hm (s, e) (List.mem_cons_self _ _)
      · exact ih sig c (fun q hq => hm q (List.mem_cons_of_mem _ hq)) hc p hp

/-- The resolution fold preserves container duplicate-freedom of every
stored record. -/
theorem dedup_foldl_noDup : ∀ (contacts : List ContactRecord)
    (m : List (Signature × ContactRecord)),
    (∀ p ∈ m, noDupLists p.2) → (∀ c ∈ contacts, noDupLists c) →
    ∀ p ∈ contacts.foldl (fun m c => upsertSig m (_contact_signature c) c) m,
      noDupLists p.2 := by
  intro contacts
  induction contacts with
  | nil => intro m hm _ p hp; exact hm p hp
  | cons c rest ih =>
    intro m hm hc p hp
    rw [List.foldl_cons] at hp
    exact ih _ (upsertSig_noDup m _ c hm (hc c (List.mem_cons_self _ _)))
      (fun d hd => hc d (List.mem_cons_of_mem _ hd)) p hp

/-- C6 counterexample: a single raw record with a duplicated email
entry resolves to itself, duplicates included — the resolver never
rewrites a record that matches no other signature. -/
theorem c6_duplicate_counterexample :
    _deduplicate_contacts [dupContact] = [dupContact] ∧
    ¬ (∀ c ∈ _deduplicate_contacts [dupContact], c.emails.Nodup) := by
  decide

/-- C6 as amended: when every raw record's email, phone and social-link
containers are themselves free of case-insensitive duplicates, every
`ResolvedContact` keeps that property (merging appends only items not
already present case-insensitively); a single raw record's pre-existing
duplicates, however, pass through to the output unchanged. -/
theorem c6_resolved_containers (contacts : List ContactRecord)
    (h : ∀ c ∈ contacts, noDupLists c) :
    ∀ c ∈ _deduplicate_contacts contacts,
      noDupLists c ∧ c.emails.Nodup ∧ c.phone_numbers.Nodup ∧ c.social_links.Nodup := by
  intro c hc
  rcases List.mem_map.mp hc with ⟨p, hp, rfl⟩
  have hgood := dedup_foldl_noDup contacts [] (by intro q hq; cases hq) h p hp
  exact ⟨hgood, hgood.1.of_map, hgood.2.1.of_map, hgood.2.2.of_map⟩

/-- C6 witness: the duplicate-freedom invariant evaluated on a concrete
resolver run. -/
theorem c6_resolved_containers_witness :
    noDupLists acmeHomepageContact ∧ acmeHomepageContact.emails.Nodup ∧
      acmeHomepageContact.phone_numbers.Nodup ∧ acmeHomepageContact.social_links.Nodup :=
  c6_resolved_containers [acmeHomepageContact] (by decide) acmeHomepageContact (by decide)

/-! Claim C10. -/

/-- A concatenation whose left part is non-empty is non-empty. -/
theorem strAppend_ne_left (a b : String) (h : a ≠ "") : a ++ b ≠ "" := by
  intro e
  apply h
  apply String.ext
  have hd : a.data ++ b.data = [] := by rw [← String.data_append, e]
  exact (List.append_eq_nil.mp hd).1

/-- A concatenation whose right part is non-empty is non-empty. -/
theorem strAppend_ne_right (a b : String) (h : b ≠ "") : a ++ b ≠ "" := by
  intro e
  apply h
  apply String.ext
  have hd : a.data ++ b.data = [] := by rw [← String.data_append, e]
  exact (List.append_eq_nil.mp hd).2

/-- C10: every contact returned by snapshot extraction carries truthy
(non-empty, non-`None`) notes recording archival provenance: falsy
original notes become exactly `Sourced from <timestamp>`, truthy ones
get the suffix ` (sourced from <timestamp>)`. -/
theorem c10_archival_notes (pageContacts : List ContactRecord) (ts : String) :
    extract_contacts_from_snapshot pageContacts ts =
      pageContacts.map (fun c => { c with notes := tagNotes c.notes ts }) ∧
    ∀ c ∈ pageContacts,
      (pyTruthyO c.notes = false → tagNotes c.notes ts = some ("Sourced from " ++ ts)) ∧
      (pyTruthyO c.notes = true →
        tagNotes c.notes ts = some (optStr c.notes ++ " (sourced from " ++ ts ++ ")")) ∧
      pyTruthyO (tagNotes c.notes ts) = true := by
  refine ⟨rfl, fun c _ => ⟨fun h => by simp [tagNotes, h], fun h => by simp [tagNotes, h], ?_⟩⟩
  cases h : pyTruthyO c.notes
  · have e : tagNotes c.notes ts = some ("Sourced from " ++ ts) := by simp [tagNotes, h]
    rw [e]
    simpa [pyTruthyO, bne_iff_ne] using strAppend_ne_left "Sourced from " ts (by decide)
  · have e : tagNotes c.notes ts =
        some (optStr c.notes ++ " (sourced from " ++ ts ++ ")") := by simp [tagNotes, h]
    rw [e]
    simpa [pyTruthyO, bne_iff_ne] using
      strAppend_ne_right (optStr c.notes ++ " (sourced from " ++ ts) ")" (by decide)

/-- C10 witness: the provenance tagging evaluated on a concrete contact
with pre-existing notes and a concrete timestamp. -/
theorem c10_archival_notes_witness :
    tagNotes demoSnapContact.notes "20200101000000" =
      some "VP of Sales (sourced from 20200101000000)" ∧
    pyTruthyO (tagNotes demoSnapContact.notes "20200101000000") = true := by
  have h := (c10_archival_notes [demoSnapContact] "20200101000000").2
    demoSnapContact (List.mem_singleton.mpr rfl)
  constructor
  · rw [h.2.1 (by decide)]
    decide
  · exact h.2.2

/-! Claim C3. -/

/-- C3 counterexample: the first tier (the CDX lookup) never sorts — on
an archive-index response whose rows arrive newest-first, the returned
records keep that order and are not chronologically ordered. -/
theorem c3_tier1_unsorted_counterexample :
    (_api_snapshot_lookup demoCdx 2015 5).map SnapshotRecord.timestamp =
      ["20240101000000", "20200101000000"] ∧
    ¬ List.Sorted tsLe (_api_snapshot_lookup demoCdx 2015 5) := by
  decide

/-- The CDX row loop never accumulates beyond the limit once below
it. -/
theorem collectRows_length_le (tsIdx urlIdx : Nat) (cutoff : Int) (limit : Nat) :
    ∀ (rows : List (List String)) (acc : List SnapshotRecord),
      acc.length < limit →
      (collectRows tsIdx urlIdx cutoff limit rows acc).length ≤ limit := by
  intro rows
  induction rows with
  | nil => intro acc h; exact Nat.le_of_lt h
  | cons row rest ih =>
    intro acc h
    simp only [collectRows]
    split
    · exact ih acc h
    · split
      · exact ih acc h
      · split
        · exact ih acc h
        · split
          · exact ih acc h
          · split
            · simpa using h
            · rename_i hnot
              exact ih _ (Nat.lt_of_not_le hnot)

/-- C3 as amended: the structured fallback tier sorts its result
ascending by timestamp and truncates it to the configured limit; the
CDX tier also respects a positive limit, but returns its records in the
index's row order without sorting them. -/
theorem c3_snapshot_selection :
    (∀ (entries : List SnapshotEntry) (limit : Nat),
      List.Sorted tsLe (fallbackSnapshots entries limit) ∧
      (fallbackSnapshots entries limit).length ≤ limit) ∧
    (∀ (data : List (List String)) (cutoff : Int) (limit : Nat), 1 ≤ limit →
      (_api_snapshot_lookup data cutoff limit).length ≤ limit) := by
  constructor
  · intro entries limit
    constructor
    · exact List.Pairwise.sublist (List.take_sublist _ _) (List.sorted_insertionSort tsLe _)
    · rw [fallbackSnapshots, List.length_take]
      exact min_le_left _ _
  · intro data cutoff limit hl
    cases data with
    | nil => simp [_api_snapshot_lookup]
    | cons header rows =>
      simp only [_api_snapshot_lookup]
      split
      · simp
      · split
        · exact collectRows_length_le _ _ _ _ rows [] hl
        · simp
        · simp

/-- C3 witness: both tiers evaluated on concrete inputs with limit
five. -/
theorem c3_snapshot_selection_witness :
    List.Sorted tsLe (fallbackSnapshots demoEntries 5) ∧
    (fallbackSnapshots demoEntries 5).length ≤ 5 ∧
    (_api_snapshot_lookup demoCdx 2015 5).length ≤ 5 :=
  ⟨(c3_snapshot_selection.1 demoEntries 5).1, (c3_snapshot_selection.1 demoEntries 5).2,
    c3_snapshot_selection.2 demoCdx 2015 5 (by decide)⟩

/-! Claim C9. -/

/-- Every persistence event is tagged with the name of a processed
business. -/
theorem runEvents_mem_names (enabled : Bool)
    (gather : BusinessProfile → List ContactRecord) :
    ∀ (businesses : List BusinessProfile) (e : String × List ContactRecord),
      e ∈ runEvents enabled gather businesses →
      e.1 ∈ businesses.map BusinessProfile.name := by
  intro businesses
  induction businesses with
  | nil => intro e he; cases he
  | cons a rest ih =>
    intro e he
    simp only [runEvents] at he
    rcases List.mem_append.mp he with he | he
    · split_ifs at he with hc
      · have : e = (a.name, _deduplicate_contacts (rawFor gather a)) := by simpa using he
        rw [this]
        simp
      · cases he
    · simp only [List.map_cons]
      exact List.mem_cons_of_mem _ (ih e he)

/-- C9: with a configured sink, the run loop issues at most one
contact-persistence call per business; its payload is exactly that
business's resolved (deduplicated) contact list — so the write happens
strictly after identity resolution — and it is non-empty; a business
whose resolved list is empty triggers no write at all. -/
theorem c9_persistence_dispatch (enabled : Bool)
    (gather : BusinessProfile → List ContactRecord) (businesses : List BusinessProfile)
    (hn : (businesses.map BusinessProfile.name).Nodup) (b : BusinessProfile)
    (hb : b ∈ businesses) :
    ((runEvents enabled gather businesses).countP (fun e => decide (e.1 = b.name))) ≤ 1 ∧
    (_deduplicate_contacts (rawFor gather b) = [] →
      (runEvents enabled gather businesses).countP (fun e => decide (e.1 = b.name)) = 0) ∧
    (∀ e ∈ runEvents enabled gather businesses, e.1 = b.name →
      enabled = true ∧ e.2 = _deduplicate_contacts (rawFor gather b) ∧ e.2 ≠ []) := by
  induction businesses with
  | nil => cases hb
  | cons a rest ih =>
    rw [List.map_cons, List.nodup_cons] at hn
    obtain ⟨hna, hnr⟩ := hn
    simp only [runEvents, List.countP_append]
    rcases List.mem_cons.mp hb with rfl | hbr
    · have hcount0 :
          (runEvents enabled gather rest).countP (fun e => decide (e.1 = b.name)) = 0 := by
        rw [List.countP_eq_zero]
        intro e he
        simp only [decide_eq_true_eq]
        intro heq
        exact hna (heq ▸ runEvents_mem_names enabled gather rest e he)
      refine ⟨?_, ?_, ?_⟩
      · rw [hcount0]
        split_ifs <;> simp
      · intro hdd
        rw [hcount0, if_neg (fun hc => hc.2 hdd)]
        simp
      · intro e he _
        rcases List.mem_append.mp he with he | he
        · split_ifs at he with hc
          · have hee : e = (b.name, _deduplicate_contacts (rawFor gather b)) := by
              simpa using he
            exact ⟨hc.1, by rw [hee], by rw [hee]; exact hc.2⟩
          · cases he
        · exact absurd (runEvents_mem_names enabled gather rest e he)
            (by
              intro hmem
              rename_i heq
              exact hna (heq ▸ hmem))
    · have hne : a.name ≠ b.name := by
        intro heq
        exact hna (heq ▸ List.mem_map_of_mem BusinessProfile.name hbr)
      obtain ⟨ih1, ih2, ih3⟩ := ih hnr hbr
      split_ifs with hc
      · have hp0 : List.countP (fun e => decide (e.1 = b.name))
            [(a.name, _deduplicate_contacts (rawFor gather a))] = 0 := by
          simp [hne]
        refine ⟨?_, ?_, ?_⟩
        · rw [hp0]
          simpa using ih1
        · intro hdd
          rw [hp0]
          simpa using ih2 hdd
        · intro e he heq
          rcases List.mem_append.mp he with he | he
          · have hee : e = (a.name, _deduplicate_contacts (rawFor gather a)) := by
              simpa using he
            rw [hee] at heq
            exact absurd heq hne
          · exact ih3 e he heq
      · refine ⟨?_, ?_, ?_⟩
        · simpa using ih1
        · intro hdd
          simpa using ih2 hdd
        · intro e he heq
          rcases List.mem_append.mp he with he | he
          · cases he
          · exact ih3 e he heq

/-- C9 witness: the dispatch property evaluated on a concrete run with
two businesses, one resolving to a contact and one (without a website)
resolving to the empty list. -/
theorem c9_persistence_dispatch_witness :
    ((runEvents true demoGather demoBusinesses).countP
      (fun e => decide (e.1 = (⟨"B2", none⟩ : BusinessProfile).name))) ≤ 1 ∧
    (runEvents true demoGather demoBusinesses).countP
      (fun e => decide (e.1 = (⟨"B2", none⟩ : BusinessProfile).name)) = 0 := by
  have h := c9_persistence_dispatch true demoGather demoBusinesses (by decide)
    ⟨"B2", none⟩ (by decide)
  exact ⟨h.1, h.2.1 (by decide)⟩

/-! Claim C7. -/

/-- C7 counterexample: on the claim's literal input — URLs `a`, `b`,
`c` with scores 0.9, 0.5, 0.9 and an internal cap of 2 — the
prioritizer returns the empty list, not `["a", "c"]`, because the very
scheme filter the claim asserts drops all three scheme-less URLs. -/
theorem c7_bare_url_counterexample :
    _split_links (some (bareLinks, [])) 2 10 =
      .ok { internal := [], external := [] } ∧
    _split_links (some (bareLinks, [])) 2 10 ≠
      .ok { internal := ["a", "c"], external := [] } := by
  decide

/-- A link accepted by the normalizer helper has an http(s) URL. -/
theorem normalize_link_ok_http {l : LinkDict} {u : String} {q : ℚ}
    (h : _normalize_link l = .ok (some (u, q))) : httpOk u = true := by
  unfold _normalize_link at h
  cases hf : firstTruthyStr l.url l.href with
  | none => simp [hf] at h
  | some v =>
    simp only [hf] at h
    by_cases hh : httpOk v = false
    · rw [if_pos hh] at h
      simp at h
    · rw [if_neg hh] at h
      cases hp : pyFloat (orJ l.total_score (orJ l.intrinsic_score (JVal.jnum 0))) with
      | ok q2 =>
        simp only [hp] at h
        simp only [Except.ok.injEq, Option.some.injEq, Prod.mk.injEq] at h
        obtain ⟨rfl, rfl⟩ := h
        simpa using hh
      | error e => simp [hp] at h

/-- The accumulation loop of `_rank` keeps URL-wise duplicate-free
accumulators of http(s) links. -/
theorem collectPairs_invariant :
    ∀ (items : List LinkDict) (seen : List String) (acc pairs : List (String × ℚ)),
      collectPairs items seen acc = .ok pairs →
      (acc.map Prod.fst).Nodup → (∀ p ∈ acc, p.1 ∈ seen) →
      (∀ p ∈ acc, httpOk p.1 = true) →
      (pairs.map Prod.fst).Nodup ∧ (∀ p ∈ pairs, httpOk p.1 = true) := by
  intro items
  induction items with
  | nil =>
    intro seen acc pairs h hnd _ hhttp
    simp only [collectPairs] at h
    injection h with h
    subst h
    exact ⟨hnd, hhttp⟩
  | cons l rest ih =>
    intro seen acc pairs h hnd hseen hhttp
    simp only [collectPairs] at h
    cases hnl : _normalize_link l with
    | error e => simp [hnl] at h
    | ok o =>
      cases o with
      | none =>
        simp only [hnl] at h
        exact ih seen acc pairs h hnd hseen hhttp
      | some p =>
        obtain ⟨u, q⟩ := p
        simp only [hnl] at h
        by_cases hu : u ∈ seen
        · rw [if_pos hu] at h
          exact ih seen acc pairs h hnd hseen hhttp
        · rw [if_neg hu] at h
          refine ih _ _ _ h ?_ ?_ ?_
          · rw [List.map_append]
            refine List.Nodup.append hnd (List.nodup_singleton _) ?_
            intro x hx hx2
            rcases List.mem_map.mp hx with ⟨p, hp, rfl⟩
            have hps := hseen p hp
            have hxu : p.1 = u := by simpa using hx2
            rw [hxu] at hps
            exact hu hps
          · intro p hp
            rcases List.mem_append.mp hp with hp | hp
            · exact List.mem_cons_of_mem _ (hseen p hp)
            · rw [show p = (u, q) by simpa using hp]
              exact List.mem_cons_self _ _
          · intro p hp
            rcases List.mem_append.mp hp with hp | hp
            · exact hhttp p hp
            · rw [show p = (u, q) by simpa using hp]
              exact normalize_link_ok_http hnl

/-- Inserting a pair whose score equals `s` puts it in front of every
other pair of score `s` already present: the skipped prefix has
strictly larger scores. -/
theorem filter_orderedInsert_of_eq (s : ℚ) (a : String × ℚ) (h : a.2 = s)
    (m : List (String × ℚ)) :
    (List.orderedInsert scoreGe a m).filter (fun p => decide (p.2 = s)) =
      a :: m.filter (fun p => decide (p.2 = s)) := by
  induction m with
  | nil => simp [h]
  | cons y ys ih =>
    by_cases hr : scoreGe a y
    · simp only [List.orderedInsert, if_pos hr]
      simp [h]
    · simp only [List.orderedInsert, if_neg hr]
      have hy : ¬ (y.2 = s) := by
        intro he
        exact hr (le_of_eq (he.trans h.symm))
      simp [List.filter_cons, hy, ih, h]

/-- Inserting a pair whose score differs from `s` leaves the score-`s`
subsequence unchanged. -/
theorem filter_orderedInsert_of_ne (s : ℚ) (a : String × ℚ) (h : ¬ (a.2 = s))
    (m : List (String × ℚ)) :
    (List.orderedInsert scoreGe a m).filter (fun p => decide (p.2 = s)) =
      m.filter (fun p => decide (p.2 = s)) := by
  induction m with
  | nil => simp [h]
  | cons y ys ih =>
    by_cases hr : scoreGe a y
    · simp only [List.orderedInsert, if_pos hr]
      simp [h]
    · simp only [List.orderedInsert, if_neg hr]
      simp [List.filter_cons, ih]

/-- The descending score sort is stable: pairs of any fixed score keep
their relative input order. -/
theorem insertionSort_stable (s : ℚ) (pairs : List (String × ℚ)) :
    (List.insertionSort scoreGe pairs).filter (fun p => decide (p.2 = s)) =
      pairs.filter (fun p => decide (p.2 = s)) := by
  induction pairs with
  | nil => rfl
  | cons a l ih =>
    simp only [List.insertionSort]
    by_cases h : a.2 = s
    · rw [filter_orderedInsert_of_eq s a h, ih]
      simp [h]
    · rw [filter_orderedInsert_of_ne s a h, ih]
      simp [h]

/-- C7 as amended: with http(s) URLs the determinism example holds
(`["http://a", "http://c"]`, tie broken by input order); in general the
prioritizer keeps only http(s) URLs with first-occurrence-wins
deduplication, sorts stably by descending score, and truncates each
side to its cap. -/
theorem c7_link_prioritization :
    _split_links (some (httpLinks, [])) 2 10 =
      .ok { internal := ["http://a", "http://c"], external := [] } ∧
    (∀ (items : List LinkDict) (pairs : List (String × ℚ)),
      collectPairs items [] [] = .ok pairs →
      (pairs.map Prod.fst).Nodup ∧ (∀ p ∈ pairs, httpOk p.1 = true)) ∧
    (∀ pairs : List (String × ℚ), List.Sorted scoreGe (List.insertionSort scoreGe pairs)) ∧
    (∀ (pairs : List (String × ℚ)) (s : ℚ),
      (List.insertionSort scoreGe pairs).filter (fun p => decide (p.2 = s)) =
        pairs.filter (fun p => decide (p.2 = s))) ∧
    (∀ (links : Option (List LinkDict × List LinkDict)) (maxI maxE : Nat) (r : SplitResult),
      _split_links links maxI maxE = .ok r →
      r.internal.length ≤ maxI ∧ r.external.length ≤ maxE) := by
  refine ⟨by decide, ?_, ?_, ?_, ?_⟩
  · intro items pairs h
    exact collectPairs_invariant items [] [] pairs h (by simp) (by simp) (by simp)
  · intro pairs
    exact List.sorted_insertionSort scoreGe pairs
  · intro pairs s
    exact insertionSort_stable s pairs
  · intro links maxI maxE r h
    rcases links with _ | ⟨ii, ee⟩
    · simp only [_split_links] at h
      injection h with h
      subst h
      exact ⟨by simp, by simp⟩
    · simp only [_split_links] at h
      cases h1 : _rank ii with
      | error e1 => simp [h1] at h
      | ok li =>
        simp only [h1] at h
        cases h2 : _rank ee with
        | error e2 => simp [h2] at h
        | ok le =>
          simp only [h2] at h
          injection h with h
          subst h
          constructor
          · rw [List.length_take]
            exact min_le_left _ _
          · rw [List.length_take]
            exact min_le_left _ _

/-- C7 witness: the invariants evaluated on the http determinism
example. -/
theorem c7_link_prioritization_witness :
    (([("http://a", q09), ("http://b", q05), ("http://c", q09)].map Prod.fst).Nodup) ∧
    (["http://a", "http://c"] : List String).length ≤ 2 ∧
    ([] : List String).length ≤ 10 := by
  refine ⟨(c7_link_prioritization.2.1 httpLinks
    [("http://a", q09), ("http://b", q05), ("http://c", q09)] (by decide)).1, ?_⟩
  exact c7_link_prioritization.2.2.2.2 (some (httpLinks, [])) 2 10
    { internal := ["http://a", "http://c"], external := [] } (by decide)

/-! Claim C8. -/

/-- C8 counterexample: a link with a well-formed http URL but a
non-numeric score string makes `_split_links` raise (the `float` call
has no handler), instead of dropping the entry and returning the
remaining results. -/
theorem c8_score_abort_counterexample :
    _split_links (some ([badScoreLink], [])) 15 10 =
      .error "could not convert string to float: abc" ∧
    (_split_links (some ([badScoreLink], [])) 15 10).toOption = none := by
  decide

/-- C8 as amended: a link with a missing or non-http(s) URL is dropped
silently, and a malformed snapshot row (short row, falsy timestamp or
original URL, unparsable year) is dropped silently; but a link that
passes the URL checks and carries a non-numeric score string raises an
error that aborts link splitting. -/
theorem c8_malformed_entries :
    (∀ (l : LinkDict) (rest : List LinkDict) (seen : List String) (acc : List (String × ℚ)),
      (firstTruthyStr l.url l.href = none ∨
        ∃ u, firstTruthyStr l.url l.href = some u ∧ httpOk u = false) →
      collectPairs (l :: rest) seen acc = collectPairs rest seen acc) ∧
    (∀ (row : List String) (rest : List (List String)) (tsIdx urlIdx : Nat)
        (cutoff : Int) (limit : Nat) (acc : List SnapshotRecord),
      (row.length ≤ max tsIdx urlIdx ∨ row.getD tsIdx "" = "" ∨ row.getD urlIdx "" = "" ∨
        pyInt? (String.mk ((row.getD tsIdx "").data.take 4)) = none) →
      collectRows tsIdx urlIdx cutoff limit (row :: rest) acc =
        collectRows tsIdx urlIdx cutoff limit rest acc) ∧
    (∀ (l : LinkDict) (rest : List LinkDict) (seen : List String) (acc : List (String × ℚ))
        (u s : String),
      firstTruthyStr l.url l.href = some u → httpOk u = true →
      orJ l.total_score (orJ l.intrinsic_score (.jnum 0)) = .jstr s → parseDec s = none →
      collectPairs (l :: rest) seen acc =
        .error ("could not convert string to float: " ++ s)) := by
  refine ⟨?_, ?_, ?_⟩
  · intro l rest seen acc h
    have hnl : _normalize_link l = .ok none := by
      unfold _normalize_link
      rcases h with h | ⟨u, hu, hh⟩
      · rw [h]
      · simp only [hu]
        rw [if_pos hh]
    simp only [collectPairs, hnl]
  · intro row rest tsIdx urlIdx cutoff limit acc h
    by_cases h1 : row.length ≤ max tsIdx urlIdx
    · simp only [collectRows, if_pos h1]
    · by_cases h2 : row.getD tsIdx "" = "" ∨ row.getD urlIdx "" = ""
      · simp only [collectRows, if_neg h1, if_pos h2]
      · have h4 : pyInt? (String.mk ((row.getD tsIdx "").data.take 4)) = none := by
          rcases h with h | h | h | h
          · exact absurd h h1
          · exact absurd (Or.inl h) h2
          · exact absurd (Or.inr h) h2
          · exact h
        simp only [collectRows, if_neg h1, if_neg h2, h4]
  · intro l rest seen acc u s hu hh hscore hparse
    have hnl : _normalize_link l = .error ("could not convert string to float: " ++ s) := by
      unfold _normalize_link
      simp only [hu]
      rw [if_neg (by simp [hh]), hscore]
      simp only [pyFloat, hparse]
    simp only [collectPairs, hnl]

/-- C8 witness: the three behaviours evaluated on concrete entries — a
`mailto:` link, a CDX row with an empty timestamp, and the non-numeric
score link. -/
theorem c8_malformed_entries_witness :
    collectPairs [({ url := some "mailto:x@y.com" } : LinkDict)] [] [] =
      collectPairs [] [] [] ∧
    collectRows 0 1 2015 5 [["", "u"]] [] = collectRows 0 1 2015 5 [] [] ∧
    collectPairs [badScoreLink] [] [] = .error "could not convert string to float: abc" := by
  refine ⟨?_, ?_, ?_⟩
  · exact c8_malformed_entries.1 _ [] [] []
      (.inr ⟨"mailto:x@y.com", by decide, by decide⟩)
  · exact c8_malformed_entries.2.1 ["", "u"] [] 0 1 2015 5 [] (.inr (.inl (by decide)))
  · exact c8_malformed_entries.2.2 badScoreLink [] [] [] "http://a" "abc"
      (by decide) (by decide) (by decide) (by decide)

end LeadGen
